import Mathlib

/-!
Shallow embedding of the Forest gas-estimation RPC module
(`src/node/rpc/src/gas_api.rs`) and proofs about its specification.

Modelling conventions:
* `BigInt` is embedded as `Int`; the `/` of `num_bigint` (truncation toward
  zero) is embedded as `Int.tdiv`.  `i64` values are embedded as `Int`
  (no claim under consideration depends on 64-bit wrap-around, and debug
  Rust aborts on overflow).
* `f64` computations are embedded as exact rationals (`ℚ`).  The only
  floating-point expressions the claims evaluate are exact in IEEE `f64`
  (`powf(_, 0.0) = 1.0`, `100000.0 * 2.0`, `100000.0 * 1.5`,
  `x * ((1i64 << k) as f64)` projections of the injected random draw), so
  the rational model agrees with the source at every point used.
  `BigInt::from_f64` truncates toward zero and is `none` only on NaN and
  infinities, which have no rational counterpart, so the embedded
  conversion always succeeds.
* The chain store is embedded as the list of tipsets from the heaviest
  tipset downwards: `heaviest_tipset()` is the head, and
  `tipset_from_keys(ts.parents())` resolves to the next list element (an
  exhausted list models a failing ancestor lookup).  External
  collaborators (key-address resolution, mempool, speculative executor)
  are fields of the state record, as the spec treats them as opaque
  services.
* The Gaussian noise draw of `estimate_gas_premium` and the stateful
  `thread_rng` are replaced by an explicit `noise : ℚ` argument
  (the spec, §9, asks for exactly this injectable-randomness reading).
-/

namespace GasApi

/-- Addresses are opaque identifiers here; only equality is ever used. -/
abbrev Address := Nat

/-- `TipsetKeys`: opaque content-identifier list; the estimators receive it
but (as proved below) never inspect it. -/
structure TipsetKeys where
  cids : List Nat
deriving Repr, DecidableEq

/-- A block header; the estimators only read `parent_base_fee`. -/
structure Block where
  parent_base_fee : Int
deriving Repr, DecidableEq

/-- `fvm_shared::message::Message`: the three gas fields plus the
caller-owned payload fields.  The source's `from`/`to` fields are
spelled `from_`/`to_` because both words are Lean keywords. -/
structure Message where
  version : Nat
  from_ : Address
  to_ : Address
  sequence : Nat
  value : Int
  method_num : Nat
  params : List Nat
  gas_limit : Int
  gas_fee_cap : Int
  gas_premium : Int
deriving Repr, DecidableEq

/-- A signed message wraps a message with an opaque signature. -/
structure SignedMessage where
  message : Message
  signature : List Nat
deriving Repr, DecidableEq

/-- `forest_message::ChainMessage`. -/
inductive ChainMessage where
  | Signed (m : SignedMessage)
  | Unsigned (m : Message)
deriving Repr, DecidableEq

/-- `ChainMessage::message()`: project the inner unsigned message. -/
def ChainMessage.message : ChainMessage → Message
  | .Signed s => s.message
  | .Unsigned m => m

/-- A tipset: epoch, sibling blocks, and the messages
`forest_chain::messages_for_tipset` returns for it. -/
structure Tipset where
  epoch : Int
  blocks : List Block
  msgs : List ChainMessage
deriving Repr, DecidableEq

/-- Execution receipt: exit code (`u32`) and gas used (`i64`). -/
structure Receipt where
  exit_code : Nat
  gas_used : Int
deriving Repr, DecidableEq

/-- Result of `StateManager::call_with_gas`: an optional receipt. -/
structure InvocResult where
  msg_rct : Option Receipt
deriving Repr, DecidableEq

/-- `MessageSendSpec`: accepted by the composer but never interpreted. -/
structure MessageSendSpec where
  max_fee : Int
deriving Repr, DecidableEq

/-- The `(price, limit)` sample pair (`GasMeta` in the source). -/
structure GasMeta where
  price : Int
  limit : Int
deriving Repr, DecidableEq

/-- The slice of `RPCState` the estimators read: the chain from the
heaviest tipset down, plus the opaque external collaborators. -/
structure RPCState where
  chain : List Tipset
  resolve_to_key_addr : Address → Tipset → Except String Address
  pending_for : Address → Option (List SignedMessage)
  cur_tipset : Tipset
  call_with_gas : ChainMessage → List ChainMessage → Option Tipset → Except String InvocResult

instance exceptDecEq {ε α : Type _} [DecidableEq ε] [DecidableEq α] : DecidableEq (Except ε α) := fun x y =>
  match x, y with
  | .error a, .error b => decidable_of_iff (a = b) (by simp)
  | .error _, .ok _ => isFalse (by simp)
  | .ok _, .error _ => isFalse (by simp)
  | .ok a, .ok b => decidable_of_iff (a = b) (by simp)

/-- Modelled from the spec: the protocol constant "base-fee max change
denominator" lives in `forest_chain`, which is not under `src/`; Filecoin
fixes it at 8. -/
def BASE_FEE_MAX_CHANGE_DENOM : Int := 8

/-- Modelled from the spec: the protocol constant "per-block gas target"
lives in `forest_chain`, not under `src/`; Filecoin fixes it at half the
per-block gas limit. -/
def BLOCK_GAS_TARGET : Int := 5000000000

/-- Modelled from the spec: the protocol constant "per-block gas limit"
lives in `fvm_shared`, not under `src/`; Filecoin fixes it at 10^10. -/
def BLOCK_GAS_LIMIT : Int := 10000000000

/-- Modelled from the spec: the protocol constant "minimum base fee"
lives in `forest_chain`, not under `src/`; Filecoin fixes it at 100. -/
def MINIMUM_BASE_FEE : Int := 100

/-- `const MIN_GAS_PREMIUM: f64 = 100000.0` (exact in `f64`). -/
def MIN_GAS_PREMIUM : ℚ := 100000

/-- Truncation toward zero, the rounding `BigInt::from_f64` applies to a
finite `f64`. -/
def f64_trunc (q : ℚ) : Int := if q < 0 then ⌈q⌉ else ⌊q⌋

/-- `BigInt::from_f64`: `none` only on NaN/infinities, which the rational
model cannot represent, hence always `some` here. -/
def bigint_from_f64 (q : ℚ) : Option Int := some (f64_trunc q)

/-- `Option::ok_or` followed by `?`: turn an `Option` into an `Except`. -/
def ok_or {α : Type _} (o : Option α) (e : String) : Except String α :=
  match o with
  | some a => .ok a
  | none => .error e

/-- `estimate_fee_cap` (gas_api.rs:41-68).  `max_queue_blks` enters the
`f64` exponent `powf(max_queue_blks as f64)`, embedded as an exact `zpow`;
`(1 << 8) as f64` is the exact constant 256.  `ts.blocks()[0]` is total in
the source because tipsets are nonempty by construction; `headD` models
that index. -/
def estimate_fee_cap (st : RPCState) (msg : Message) (max_queue_blks : Int) (_tsk : TipsetKeys) : Except String Int := do
  let ts ← ok_or st.chain.head? "cant find heaviest tipset"
  let parent_base_fee := (ts.blocks.headD ⟨0⟩).parent_base_fee
  let increase_factor : ℚ := (1 + (BASE_FEE_MAX_CHANGE_DENOM : ℚ)⁻¹) ^ max_queue_blks
  let m ← ok_or (bigint_from_f64 (increase_factor * 256)) "failed to convert fee_in_future f64 to bigint"
  let fee_in_future := parent_base_fee * m
  let out := fee_in_future.tdiv 256
  pure (out + msg.gas_premium)

/-- `if nblocksincl == 0 { nblocksincl = 1 }` (gas_api.rs:93-95). -/
def clampNblocks (nblocksincl : Nat) : Nat :=
  if nblocksincl = 0 then 1 else nblocksincl

/-- The ancestor-walking sample collection loop of `estimate_gas_premium`
(gas_api.rs:112-134).  `anc` is the parent chain below `ts`; an exhausted
`anc` models a failing `tipset_from_keys` lookup.  The third result
component instruments the loop with the number of parent-link steps
actually performed (it is discarded by `estimate_gas_premium` and exists
only so resource claims can be stated). -/
def gatherLoop : Nat → Tipset → List Tipset → List GasMeta → Nat → Except String (List GasMeta × Nat × Nat)
  | 0, _, _, prices, blocks => .ok (prices, blocks, 0)
  | fuel+1, ts, anc, prices, blocks =>
    if ts.epoch = 0 then .ok (prices, blocks, 0)
    else
      match anc with
      | [] => .error "cant get tipset from keys"
      | pts :: rest =>
        match gatherLoop fuel pts rest
            (prices ++ pts.msgs.map fun m => { price := m.message.gas_premium, limit := m.message.gas_limit })
            (blocks + pts.blocks.length) with
        | .error e => .error e
        | .ok (ps, bs, steps) => .ok (ps, bs, steps + 1)

/-- One step of a stable descending insertion by `price`: insert after any
equal-priced entries, before the first strictly smaller one. -/
def insertDesc (x : GasMeta) : List GasMeta → List GasMeta
  | [] => [x]
  | y :: ys => if y.price < x.price then x :: y :: ys else y :: insertDesc x ys

/-- `prices.sort_by(|a, b| b.price.cmp(&a.price))` (gas_api.rs:136):
Rust's stable sort with this comparator.  A stable sort's output is
uniquely determined by the comparator and the input, so this stable
insertion sort is extensionally the source's sort. -/
def sortPricesDesc (l : List GasMeta) : List GasMeta :=
  l.foldl (fun acc x => insertDesc x acc) []

/-- Result of the sweep loop of `estimate_gas_premium` (gas_api.rs:142-153):
either the early `return Ok(price.price + 1)` fired (`ret`), or the loop
ran to completion leaving `premium` (`done`). -/
inductive SweepResult where
  | ret (v : Int)
  | done (premium : Int)
deriving Repr, DecidableEq

/-- The sweep loop of `estimate_gas_premium` (gas_api.rs:142-153), with
`att` playing the source's `at`: subtract each sample's limit; while the
target stays positive remember the sample's price in `prev`; once it is
non-positive, return `price + 1` if `prev` is zero, otherwise overwrite
`premium` with the midpoint `(price + prev) / 2 + 1` and keep looping. -/
def premiumSweep : List GasMeta → Int → Int → Int → SweepResult
  | [], _, _, premium => .done premium
  | price :: rest, att, prev, premium =>
    let att1 := att - price.limit
    if att1 > 0 then premiumSweep rest att1 price.price premium
    else if prev = 0 then .ret (price.price + 1)
    else premiumSweep rest att1 prev ((price.price + prev).tdiv 2 + 1)

/-- The fallback multiplier table (gas_api.rs:156-160), in exact `f64`
arithmetic: `MIN_GAS_PREMIUM * {2.0, 1.5, 1.0}`. -/
def fallbackPremium (nblocksincl : Nat) : ℚ :=
  match nblocksincl with
  | 1 => MIN_GAS_PREMIUM * 2
  | 2 => MIN_GAS_PREMIUM * 3 / 2
  | _ => MIN_GAS_PREMIUM

/-- The anti-gaming jitter (gas_api.rs:164-173): `premium *=
from_f64(noise * (1i64 << 32) as f64); premium /= 1i64 << 32`. -/
def applyJitter (premium : Int) (noise : ℚ) : Except String Int := do
  let m ← ok_or (bigint_from_f64 (noise * 4294967296)) "failed to converrt gas premium f64 to bigint"
  pure ((premium * m).tdiv 4294967296)

/-- `estimate_gas_premium` (gas_api.rs:85-176), with the Gaussian draw
injected as `noise`.  `BLOCK_GAS_TARGET * blocks as i64 / 2` uses `i64`
(truncating) division. -/
def estimate_gas_premium (st : RPCState) (nblocksincl0 : Nat) (noise : ℚ) : Except String Int :=
  let nblocksincl := clampNblocks nblocksincl0
  ok_or st.chain.head? "cant get heaviest tipset" >>= fun ts =>
  gatherLoop (nblocksincl * 2) ts st.chain.tail [] 0 >>= fun pbs =>
  let prices := pbs.1
  let blocks := pbs.2.1
  let sorted := sortPricesDesc prices
  let att0 : Int := (BLOCK_GAS_TARGET * (blocks : Int)).tdiv 2
  match premiumSweep sorted att0 0 0 with
  | .ret v => pure v
  | .done premium0 =>
    (if premium0 = 0 then
        ok_or (bigint_from_f64 (fallbackPremium nblocksincl)) "failed to convert gas premium f64 to bigint"
      else pure premium0) >>= fun premium1 =>
    applyJitter premium1 noise

/-- `gas_estimate_gas_premium` (gas_api.rs:71-83): the RPC wrapper
destructures `(nblocksincl, _sender, _gas_limit, _tsk)` and forwards only
`nblocksincl`, rendering the result as a decimal string. -/
def gas_estimate_gas_premium (st : RPCState) (nblocksincl : Nat) (_sender : Address) (_gas_limit : Int) (_tsk : TipsetKeys) (noise : ℚ) : Except String String :=
  (estimate_gas_premium st nblocksincl noise).map toString

/-- `pending.map(|s| ...collect()).unwrap_or_default()` (gas_api.rs:216-219). -/
def priorMessages (pending : Option (List SignedMessage)) : List ChainMessage :=
  (pending.map fun s => s.map ChainMessage.Signed).getD []

/-- `estimate_gas_limit` (gas_api.rs:191-240). -/
def estimate_gas_limit (st : RPCState) (msg : Message) (_tsk : TipsetKeys) : Except String Int := do
  let msg := { msg with gas_limit := BLOCK_GAS_LIMIT, gas_fee_cap := MINIMUM_BASE_FEE + 1, gas_premium := 1 }
  let curr_ts ← ok_or st.chain.head? "cant find the current heaviest tipset"
  let from_a ← st.resolve_to_key_addr msg.from_ curr_ts
  let prior_messages := priorMessages (st.pending_for from_a)
  let res ← st.call_with_gas (ChainMessage.Unsigned msg) prior_messages (some st.cur_tipset)
  match res.msg_rct with
  | some rct => if rct.exit_code ≠ 0 then pure (-1) else pure (rct.gas_used + 200000)
  | none => pure (-1)

/-- `estimate_message_gas` (gas_api.rs:257-282): fill exactly the zero gas
fields, in the order limit, premium (10-block target), fee cap (20-block
tolerance). -/
def estimate_message_gas (st : RPCState) (msg : Message) (_spec : Option MessageSendSpec) (tsk : TipsetKeys) (noise : ℚ) : Except String Message :=
  (if msg.gas_limit = 0 then
      (estimate_gas_limit st msg tsk) >>= fun gl => pure { msg with gas_limit := gl }
    else pure msg) >>= fun msg1 =>
  (if msg1.gas_premium = 0 then
      (estimate_gas_premium st 10 noise) >>= fun gp => pure { msg1 with gas_premium := gp }
    else pure msg1) >>= fun msg2 =>
  (if msg2.gas_fee_cap = 0 then
      (estimate_fee_cap st msg2 20 tsk) >>= fun gfp => pure { msg2 with gas_fee_cap := gfp }
    else pure msg2) >>= fun msg3 =>
  pure msg3

/-- The returned message agrees with the input on every field except the
three gas fields (the composer's frame). -/
def sameNonGasFields (a b : Message) : Prop :=
  a.version = b.version ∧ a.from_ = b.from_ ∧ a.to_ = b.to_ ∧ a.sequence = b.sequence ∧
    a.value = b.value ∧ a.method_num = b.method_num ∧ a.params = b.params

/-- Sum of the `limit` fields of a sample list (for stating sweep facts). -/
def sumLimits : List GasMeta → Int
  | [] => 0
  | g :: gs => g.limit + sumLimits gs

/-- The price of the last sample of `l`, or `d` when `l` is empty: the
value held by the sweep's `prev` after a run of target-positive steps. -/
def lastPriceD : List GasMeta → Int → Int
  | [], d => d
  | g :: gs, _ => lastPriceD gs g.price

/-- The premium left by the post-crossing tail of the sweep: each sample
overwrites `premium` with its own midpoint against the frozen `prev`. -/
def sweepDoneVal : List GasMeta → Int → Int → Int
  | [], _, premium => premium
  | g :: gs, prev, _ => sweepDoneVal gs prev ((g.price + prev).tdiv 2 + 1)

/-- An all-zero message, the base point for concrete test messages. -/
def msg0 : Message :=
  { version := 0, from_ := 0, to_ := 0, sequence := 0, value := 0, method_num := 0,
    params := [], gas_limit := 0, gas_fee_cap := 0, gas_premium := 0 }

/-- A genesis tipset (epoch 0) with one block of base fee 0 and no messages. -/
def genesisTipset : Tipset := { epoch := 0, blocks := [⟨0⟩], msgs := [] }

/-- A minimal chain state: genesis only, trivial resolver, empty mempool,
failing executor. -/
def baseState : RPCState :=
  { chain := [genesisTipset]
  , resolve_to_key_addr := fun a _ => .ok a
  , pending_for := fun _ => none
  , cur_tipset := genesisTipset
  , call_with_gas := fun _ _ _ => .error "executor unavailable" }

/-- A state whose executor reports success with gas used 100000. -/
def mockOkState : RPCState :=
  { baseState with call_with_gas := fun _ _ _ => .ok { msg_rct := some { exit_code := 0, gas_used := 100000 } } }

/-- An unsigned message carrying only a premium and a limit. -/
def cheapCm (prem lim : Int) : ChainMessage :=
  .Unsigned { msg0 with gas_limit := lim, gas_premium := prem }

/-- Parent tipset holding two messages: premium 1 / limit 1, then premium
0 / limit 2500000000 (exactly the half-target of one block). -/
def crossTipset : Tipset := { epoch := 0, blocks := [⟨0⟩], msgs := [cheapCm 1 1, cheapCm 0 2500000000] }

/-- Heaviest tipset at epoch 1 whose parent is `crossTipset`. -/
def headTipset : Tipset := { epoch := 1, blocks := [⟨0⟩], msgs := [] }

/-- Chain state on which the sweep yields the pre-jitter premium 1. -/
def zeroOutState : RPCState := { baseState with chain := [headTipset, crossTipset] }

/-- A message with only the gas limit and the premium pre-set. -/
def msgPre : Message := { msg0 with gas_limit := 1, gas_premium := 5 }

/-- `msgPre` after the composer has filled in the fee cap. -/
def msgPost : Message := { msgPre with gas_fee_cap := 5 }

theorem except_bind_ok {α β : Type _} {x : Except String α} {f : α → Except String β} {b : β}
    (h : x >>= f = Except.ok b) : ∃ a, x = Except.ok a ∧ f a = Except.ok b := by
  cases x with
  | error e =>
    rw [show (Except.error e >>= f : Except String β) = Except.error e from rfl] at h
    exact Except.noConfusion h
  | ok a =>
    refine ⟨a, rfl, ?_⟩
    rw [show (Except.ok a >>= f : Except String β) = f a from rfl] at h
    exact h

theorem ok_or_eq_ok {α : Type _} {o : Option α} {e : String} {a : α}
    (h : ok_or o e = Except.ok a) : o = some a := by
  cases o with
  | none => exact Except.noConfusion h
  | some x => cases h; rfl

theorem pure_eq_ok {α : Type _} {a b : α}
    (h : (pure a : Except String α) = Except.ok b) : a = b := by
  cases h; rfl

theorem ok_bind {α β : Type _} (a : α) (f : α → Except String β) :
    (Except.ok a >>= f : Except String β) = f a := rfl

theorem ok_or_some {α : Type _} (a : α) (e : String) : ok_or (some a) e = Except.ok a := rfl

/-- Claim C10: the caller-supplied tipset keys are ignored by
`estimate_fee_cap` and `estimate_gas_limit`, and the sender address and
gas-limit RPC parameters are ignored by `gas_estimate_gas_premium`:
varying only those inputs (same chain/mempool state, same noise draw)
yields identical outputs. -/
theorem estimators_ignore_rpc_params :
    ∀ (st : RPCState) (msg : Message) (q : Int) (tsk tsk' : TipsetKeys) (n : Nat)
      (s s' : Address) (gl gl' : Int) (noise : ℚ),
      estimate_fee_cap st msg q tsk = estimate_fee_cap st msg q tsk' ∧
      estimate_gas_limit st msg tsk = estimate_gas_limit st msg tsk' ∧
      gas_estimate_gas_premium st n s gl tsk noise = gas_estimate_gas_premium st n s' gl' tsk' noise := by
  intro st msg q tsk tsk' n s s' gl gl' noise
  exact ⟨rfl, rfl, rfl⟩

/-- Claim C3: whatever the executor reports, `estimate_gas_limit` returns
`-1` when the speculative execution yields no receipt or a receipt with
non-zero exit status, and `gas_used + 200000` when the exit status is 0. -/
theorem estimate_gas_limit_receipt (st : RPCState) (msg : Message) (tsk : TipsetKeys)
    (ts : Tipset) (a : Address) (r : InvocResult)
    (hts : st.chain.head? = some ts)
    (hra : st.resolve_to_key_addr msg.from_ ts = Except.ok a)
    (hcall : st.call_with_gas
        (ChainMessage.Unsigned { msg with gas_limit := BLOCK_GAS_LIMIT, gas_fee_cap := MINIMUM_BASE_FEE + 1, gas_premium := 1 })
        (priorMessages (st.pending_for a)) (some st.cur_tipset) = Except.ok r) :
    estimate_gas_limit st msg tsk =
      Except.ok (match r.msg_rct with
        | some rct => if rct.exit_code ≠ 0 then -1 else rct.gas_used + 200000
        | none => -1) := by
  simp only [estimate_gas_limit, hts, ok_or_some, ok_bind, hra, hcall]
  rcases r.msg_rct with _ | rct
  · rfl
  · dsimp only
    by_cases hc : rct.exit_code ≠ 0
    · rw [if_pos hc, if_pos hc]; rfl
    · rw [if_neg hc, if_neg hc]; rfl

/-- Witness for C3: a mock executor succeeding with gas used 100000 makes
`estimate_gas_limit` return 300000. -/
theorem estimate_gas_limit_receipt_witness :
    estimate_gas_limit mockOkState msg0 ⟨[]⟩ = Except.ok 300000 := by
  have h := estimate_gas_limit_receipt mockOkState msg0 ⟨[]⟩ genesisTipset 0
    { msg_rct := some { exit_code := 0, gas_used := 100000 } } rfl rfl rfl
  rw [h]
  rfl

/-- Claim C4: when all three gas fields of the incoming message are
non-zero, `estimate_message_gas` returns the message unchanged, for every
state whatsoever — in particular for states on which every estimator
fails, so none of them can have been invoked. -/
theorem estimate_message_gas_idempotent (st : RPCState) (msg : Message)
    (spec : Option MessageSendSpec) (tsk : TipsetKeys) (noise : ℚ)
    (h1 : msg.gas_limit ≠ 0) (h2 : msg.gas_premium ≠ 0) (h3 : msg.gas_fee_cap ≠ 0) :
    estimate_message_gas st msg spec tsk noise = Except.ok msg := by
  unfold estimate_message_gas
  simp [h1, h2, h3]
  rfl

/-- Witness for C4: a message with all gas fields 1 passes through the
composer unchanged even on the failing `baseState`. -/
theorem estimate_message_gas_idempotent_witness :
    estimate_message_gas baseState { msg0 with gas_limit := 1, gas_fee_cap := 1, gas_premium := 1 } none ⟨[]⟩ 1 =
      Except.ok { msg0 with gas_limit := 1, gas_fee_cap := 1, gas_premium := 1 } := by
  exact estimate_message_gas_idempotent baseState _ none ⟨[]⟩ 1
    (by decide) (by decide) (by decide)

/-- Claim C6: with `max_queue_blks = 0` the growth factor is exactly 1,
and multiplying the base fee by `trunc(1 * 2^8)` then dividing by `2^8`
loses nothing, so the fee cap is exactly `parent_base_fee + gas_premium`
for every chain state with a heaviest tipset and every message. -/
theorem estimate_fee_cap_zero_queue (st : RPCState) (msg : Message) (tsk : TipsetKeys) (ts : Tipset)
    (hts : st.chain.head? = some ts) :
    estimate_fee_cap st msg 0 tsk =
      Except.ok ((ts.blocks.headD ⟨0⟩).parent_base_fee + msg.gas_premium) := by
  unfold estimate_fee_cap
  simp only [hts, ok_or_some, ok_bind]
  have h1 : ((1 + (BASE_FEE_MAX_CHANGE_DENOM : ℚ)⁻¹) ^ (0 : ℤ)) * 256 = 256 := by
    rw [zpow_zero]; ring
  rw [h1]
  have h2 : bigint_from_f64 (256 : ℚ) = some 256 := by
    unfold bigint_from_f64 f64_trunc
    norm_num
  rw [h2]
  simp only [ok_or_some, ok_bind]
  have h3 : ((ts.blocks.headD ⟨0⟩).parent_base_fee * 256).tdiv 256 =
      (ts.blocks.headD ⟨0⟩).parent_base_fee :=
    Int.mul_tdiv_cancel _ (by norm_num)
  rw [h3]
  rfl

/-- Witness for C6: on the genesis-only state (base fee 0) with premium 0
the fee cap at queue 0 is exactly 0 + 0. -/
theorem estimate_fee_cap_zero_queue_witness :
    estimate_fee_cap baseState msg0 0 ⟨[]⟩ = Except.ok 0 := by
  have h := estimate_fee_cap_zero_queue baseState msg0 ⟨[]⟩ genesisTipset rfl
  rw [h]
  rfl

theorem fallback_eval (m : Nat) :
    bigint_from_f64 (fallbackPremium m) =
      some (if m = 1 then 200000 else if m = 2 then 150000 else 100000) := by
  match m with
  | 0 => simp [bigint_from_f64, fallbackPremium, f64_trunc, MIN_GAS_PREMIUM]
  | 1 => simp [bigint_from_f64, fallbackPremium, f64_trunc, MIN_GAS_PREMIUM]; norm_num
  | 2 => simp [bigint_from_f64, fallbackPremium, f64_trunc, MIN_GAS_PREMIUM]; norm_num
  | (n+3) => simp [bigint_from_f64, fallbackPremium, f64_trunc, MIN_GAS_PREMIUM]

theorem premium_eval_fallback (st : RPCState) (n0 : Nat) (noise : ℚ) (ts : Tipset)
    (prices : List GasMeta) (blocks steps : Nat)
    (hts : st.chain.head? = some ts)
    (hg : gatherLoop (clampNblocks n0 * 2) ts st.chain.tail [] 0 = Except.ok (prices, blocks, steps))
    (hsweep : premiumSweep (sortPricesDesc prices) ((BLOCK_GAS_TARGET * (blocks : Int)).tdiv 2) 0 0 = SweepResult.done 0) :
    estimate_gas_premium st n0 noise =
      applyJitter (if clampNblocks n0 = 1 then 200000 else if clampNblocks n0 = 2 then 150000 else 100000) noise := by
  unfold estimate_gas_premium
  simp only [hts, ok_or_some, ok_bind, hg, hsweep, fallback_eval]
  simp
  rfl

/-- Claim C7: whenever the sweep leaves the premium at 0, the pre-jitter
premium becomes `MIN_GAS_PREMIUM` times 2.0 / 1.5 / 1.0 according to the
(clamped) `nblocksincl` being 1 / 2 / anything else, truncated to an
integer: the whole call then reduces to jittering that table value. -/
theorem premium_fallback_table (st : RPCState) (n0 : Nat) (noise : ℚ) (ts : Tipset)
    (prices : List GasMeta) (blocks steps : Nat)
    (hts : st.chain.head? = some ts)
    (hg : gatherLoop (clampNblocks n0 * 2) ts st.chain.tail [] 0 = Except.ok (prices, blocks, steps))
    (hsweep : premiumSweep (sortPricesDesc prices) ((BLOCK_GAS_TARGET * (blocks : Int)).tdiv 2) 0 0 = SweepResult.done 0) :
    estimate_gas_premium st n0 noise =
      applyJitter (if clampNblocks n0 = 1 then 200000 else if clampNblocks n0 = 2 then 150000 else 100000) noise :=
  premium_eval_fallback st n0 noise ts prices blocks steps hts hg hsweep

/-- Witness for C7: on the genesis-only state (no samples, no crossing)
with `nblocksincl = 1`, the call reduces to jittering 200000. -/
theorem premium_fallback_table_witness :
    estimate_gas_premium baseState 1 1 = applyJitter 200000 1 := by
  have h := premium_fallback_table baseState 1 1 genesisTipset [] 0 0 rfl rfl rfl
  simpa using h

theorem gatherLoop_steps_le : ∀ (fuel : Nat) (ts : Tipset) (anc : List Tipset)
    (prices : List GasMeta) (blocks : Nat) (out : List GasMeta × Nat × Nat),
    gatherLoop fuel ts anc prices blocks = Except.ok out → out.2.2 ≤ fuel := by
  intro fuel
  induction fuel with
  | zero =>
    intro ts anc prices blocks out h
    cases h
    simp
  | succ n ih =>
    intro ts anc prices blocks out h
    unfold gatherLoop at h
    split at h
    · cases h; simp
    · split at h
      · exact Except.noConfusion h
      · rename_i pts rest
        split at h
        · exact Except.noConfusion h
        · rename_i ps bs steps hg
          cases h
          have := ih pts rest _ _ _ hg
          simpa using Nat.succ_le_succ this

/-- Claim C8: the ancestor traversal is a total function of its fuel
`clampNblocks n * 2` (0 is treated as 1); whenever it succeeds it has
performed at most `2 * clampNblocks n` parent-link steps, and if the
starting tipset is already at epoch 0 it exits at once with `ok` (zero
steps, no error) whatever the ancestor list looks like. -/
theorem gather_traversal_bounded (n0 : Nat) (ts : Tipset) (anc : List Tipset)
    (prices : List GasMeta) (blocks steps : Nat)
    (h : gatherLoop (clampNblocks n0 * 2) ts anc [] 0 = Except.ok (prices, blocks, steps)) :
    steps ≤ clampNblocks n0 * 2 ∧
      (ts.epoch = 0 → gatherLoop (clampNblocks n0 * 2) ts anc [] 0 = Except.ok ([], 0, 0)) := by
  constructor
  · exact gatherLoop_steps_le _ ts anc [] 0 (prices, blocks, steps) h
  · intro he
    obtain ⟨k, hk⟩ : ∃ k, clampNblocks n0 * 2 = k + 1 :=
      ⟨clampNblocks n0 * 2 - 1, by unfold clampNblocks; split <;> omega⟩
    rw [hk]
    unfold gatherLoop
    rw [if_pos he]

/-- Witness for C8: on genesis with an empty ancestor list and
`nblocksincl = 1` the traversal takes 0 ≤ 2 steps and exits with `ok`. -/
theorem gather_traversal_bounded_witness :
    0 ≤ clampNblocks 1 * 2 ∧
      (genesisTipset.epoch = 0 →
        gatherLoop (clampNblocks 1 * 2) genesisTipset [] [] 0 = Except.ok ([], 0, 0)) :=
  gather_traversal_bounded 1 genesisTipset [] [] 0 0 rfl

theorem sameNonGasFields_refl (a : Message) : sameNonGasFields a a :=
  ⟨rfl, rfl, rfl, rfl, rfl, rfl, rfl⟩

theorem sameNonGasFields_trans {a b c : Message}
    (h1 : sameNonGasFields a b) (h2 : sameNonGasFields b c) : sameNonGasFields a c := by
  obtain ⟨x1, x2, x3, x4, x5, x6, x7⟩ := h1
  obtain ⟨y1, y2, y3, y4, y5, y6, y7⟩ := h2
  exact ⟨x1.trans y1, x2.trans y2, x3.trans y3, x4.trans y4, x5.trans y5, x6.trans y6, x7.trans y7⟩

theorem frame_step_limit (msg : Message) (gl : Int) :
    sameNonGasFields { msg with gas_limit := gl } msg :=
  ⟨rfl, rfl, rfl, rfl, rfl, rfl, rfl⟩

theorem frame_step_premium (msg : Message) (gp : Int) :
    sameNonGasFields { msg with gas_premium := gp } msg :=
  ⟨rfl, rfl, rfl, rfl, rfl, rfl, rfl⟩

theorem frame_step_fee_cap (msg : Message) (gfp : Int) :
    sameNonGasFields { msg with gas_fee_cap := gfp } msg :=
  ⟨rfl, rfl, rfl, rfl, rfl, rfl, rfl⟩

/-- Claim C9: whatever the composer returns, the resulting message agrees
with the input on sender, receiver, value, method selector, parameters,
nonce and version — only the three gas fields can differ. -/
theorem estimate_message_gas_frame (st : RPCState) (msg : Message) (spec : Option MessageSendSpec)
    (tsk : TipsetKeys) (noise : ℚ) (m : Message)
    (h : estimate_message_gas st msg spec tsk noise = Except.ok m) :
    sameNonGasFields m msg := by
  unfold estimate_message_gas at h
  obtain ⟨msg1, h1, h⟩ := except_bind_ok h
  obtain ⟨msg2, h2, h⟩ := except_bind_ok h
  obtain ⟨msg3, h3, h⟩ := except_bind_ok h
  have hm : msg3 = m := pure_eq_ok h
  have f1 : sameNonGasFields msg1 msg := by
    by_cases hcnd : msg.gas_limit = 0
    · rw [if_pos hcnd] at h1
      obtain ⟨gl, _, h1'⟩ := except_bind_ok h1
      rw [← pure_eq_ok h1']
      exact frame_step_limit msg gl
    · rw [if_neg hcnd] at h1
      rw [← pure_eq_ok h1]
      exact sameNonGasFields_refl msg
  have f2 : sameNonGasFields msg2 msg1 := by
    by_cases hcnd : msg1.gas_premium = 0
    · rw [if_pos hcnd] at h2
      obtain ⟨gp, _, h2'⟩ := except_bind_ok h2
      rw [← pure_eq_ok h2']
      exact frame_step_premium msg1 gp
    · rw [if_neg hcnd] at h2
      rw [← pure_eq_ok h2]
      exact sameNonGasFields_refl msg1
  have f3 : sameNonGasFields msg3 msg2 := by
    by_cases hcnd : msg2.gas_fee_cap = 0
    · rw [if_pos hcnd] at h3
      obtain ⟨gfp, _, h3'⟩ := except_bind_ok h3
      rw [← pure_eq_ok h3']
      exact frame_step_fee_cap msg2 gfp
    · rw [if_neg hcnd] at h3
      rw [← pure_eq_ok h3]
      exact sameNonGasFields_refl msg2
  rw [← hm]
  exact sameNonGasFields_trans (sameNonGasFields_trans f3 f2) f1

/-- Witness for C9: a fully pre-set message passes through and trivially
agrees with itself on the non-gas fields. -/
theorem estimate_message_gas_frame_witness :
    sameNonGasFields { msg0 with gas_limit := 1, gas_fee_cap := 1, gas_premium := 1 }
      { msg0 with gas_limit := 1, gas_fee_cap := 1, gas_premium := 1 } :=
  estimate_message_gas_frame baseState _ none ⟨[]⟩ 1 _ (by decide)

theorem estimate_fee_cap_premium_congr (st : RPCState) (m1 m2 : Message) (q : Int) (tsk : TipsetKeys)
    (h : m1.gas_premium = m2.gas_premium) :
    estimate_fee_cap st m1 q tsk = estimate_fee_cap st m2 q tsk := by
  unfold estimate_fee_cap
  rw [h]

/-- Claim C5: when the caller pre-sets a non-zero premium and leaves the
fee cap at zero, the composer keeps the premium and fills the fee cap
with exactly `estimate_fee_cap` of the original message (hence of the
caller's premium) at the 20-block queueing tolerance. -/
theorem composer_ordering (st : RPCState) (msg : Message) (spec : Option MessageSendSpec)
    (tsk : TipsetKeys) (noise : ℚ) (m : Message)
    (hp : msg.gas_premium ≠ 0) (hc : msg.gas_fee_cap = 0)
    (h : estimate_message_gas st msg spec tsk noise = Except.ok m) :
    m.gas_premium = msg.gas_premium ∧
      estimate_fee_cap st msg 20 tsk = Except.ok m.gas_fee_cap := by
  unfold estimate_message_gas at h
  obtain ⟨msg1, h1, h⟩ := except_bind_ok h
  obtain ⟨msg2, h2, h⟩ := except_bind_ok h
  obtain ⟨msg3, h3, h⟩ := except_bind_ok h
  have hm : msg3 = m := pure_eq_ok h
  have hp1 : msg1.gas_premium = msg.gas_premium ∧ msg1.gas_fee_cap = msg.gas_fee_cap := by
    by_cases hcnd : msg.gas_limit = 0
    · rw [if_pos hcnd] at h1
      obtain ⟨gl, _, h1'⟩ := except_bind_ok h1
      rw [← pure_eq_ok h1']
      exact ⟨rfl, rfl⟩
    · rw [if_neg hcnd] at h1
      rw [← pure_eq_ok h1]
      exact ⟨rfl, rfl⟩
  have h2' : msg2 = msg1 := by
    have : ¬ msg1.gas_premium = 0 := by rw [hp1.1]; exact hp
    rw [if_neg this] at h2
    exact (pure_eq_ok h2).symm
  have hc2 : msg2.gas_fee_cap = 0 := by rw [h2', hp1.2, hc]
  rw [if_pos hc2] at h3
  obtain ⟨gfp, hgfp, h3'⟩ := except_bind_ok h3
  have hm3 : msg3 = { msg2 with gas_fee_cap := gfp } := (pure_eq_ok h3').symm
  constructor
  · rw [← hm, hm3]
    show msg2.gas_premium = msg.gas_premium
    rw [h2', hp1.1]
  · have hpc : msg.gas_premium = msg2.gas_premium := by rw [h2', hp1.1]
    rw [estimate_fee_cap_premium_congr st msg msg2 20 tsk hpc, hgfp, ← hm, hm3]

/-- Witness for C5: with limit 1 and premium 5 pre-set and fee cap 0, on
the genesis-only state the composer fills the fee cap with 5, which is
exactly the direct fee-cap estimate of the original message at 20 blocks. -/
theorem composer_ordering_witness :
    msgPre.gas_premium ≠ 0 ∧ msgPre.gas_fee_cap = 0 ∧
      (msgPost.gas_premium = msgPre.gas_premium ∧
        estimate_fee_cap baseState msgPre 20 ⟨[]⟩ = Except.ok msgPost.gas_fee_cap) := by
  have h256 : bigint_from_f64 ((1 + (BASE_FEE_MAX_CHANGE_DENOM : ℚ)⁻¹) ^ (20 : ℤ) * 256) = some 2699 := by
    unfold bigint_from_f64 f64_trunc BASE_FEE_MAX_CHANGE_DENOM
    norm_num
  have hfc : estimate_fee_cap baseState msgPre 20 ⟨[]⟩ = Except.ok 5 := by
    unfold estimate_fee_cap
    rw [show baseState.chain.head? = some genesisTipset from rfl]
    simp only [ok_or_some, ok_bind]
    rw [h256]
    rfl
  have heval : estimate_message_gas baseState msgPre none ⟨[]⟩ 1 = Except.ok msgPost := by
    have c1 : ¬ msgPre.gas_limit = 0 := by decide
    have c2 : ¬ msgPre.gas_premium = 0 := by decide
    have c3 : msgPre.gas_fee_cap = 0 := by decide
    unfold estimate_message_gas
    rw [if_neg c1]
    simp only [pure_bind]
    rw [if_neg c2]
    simp only [pure_bind]
    rw [if_pos c3, hfc]
    simp only [ok_bind, pure_bind]
    rfl
  exact ⟨by decide, by decide,
    composer_ordering baseState msgPre none ⟨[]⟩ 1 msgPost (by decide) (by decide) heval⟩

theorem premiumSweep_skip : ∀ (ps1 rest : List GasMeta) (att prev premium : Int),
    (∀ k, k < ps1.length → 0 < att - sumLimits (ps1.take (k+1))) →
    premiumSweep (ps1 ++ rest) att prev premium =
      premiumSweep rest (att - sumLimits ps1) (lastPriceD ps1 prev) premium := by
  intro ps1
  induction ps1 with
  | nil =>
    intro rest att prev premium _
    simp [sumLimits, lastPriceD]
  | cons p ps ih =>
    intro rest att prev premium hpre
    have h0 : 0 < att - p.limit := by
      have h := hpre 0 (by simp)
      have hs : sumLimits ((p :: ps).take 1) = p.limit := by simp [sumLimits]
      rw [hs] at h
      exact h
    have hpre' : ∀ k, k < ps.length → 0 < att - p.limit - sumLimits (ps.take (k+1)) := by
      intro k hk
      have h := hpre (k+1) (by simpa using Nat.succ_lt_succ hk)
      have hs : sumLimits ((p :: ps).take (k+2)) = p.limit + sumLimits (ps.take (k+1)) := by
        simp [List.take_succ_cons, sumLimits]
      rw [hs] at h
      omega
    have hstep : premiumSweep ((p :: ps) ++ rest) att prev premium =
        premiumSweep (ps ++ rest) (att - p.limit) p.price premium := by
      show premiumSweep (p :: (ps ++ rest)) att prev premium = _
      simp only [premiumSweep]
      rw [if_pos h0]
    rw [hstep, ih rest (att - p.limit) p.price premium hpre']
    rw [show sumLimits (p :: ps) = p.limit + sumLimits ps from rfl,
      show lastPriceD (p :: ps) prev = lastPriceD ps p.price from rfl, sub_sub]

theorem premiumSweep_post : ∀ (ps : List GasMeta) (att prev premium : Int),
    (∀ g ∈ ps, 0 ≤ g.limit) → att ≤ 0 → prev ≠ 0 →
    premiumSweep ps att prev premium = SweepResult.done (sweepDoneVal ps prev premium) := by
  intro ps
  induction ps with
  | nil => intro att prev premium _ _ _; rfl
  | cons g gs ih =>
    intro att prev premium hlim hatt hprev
    have hg0 : 0 ≤ g.limit := hlim g (by simp)
    have h1 : ¬ (att - g.limit > 0) := by omega
    unfold premiumSweep
    rw [if_neg h1, if_neg hprev]
    exact ih (att - g.limit) prev _ (fun x hx => hlim x (by simp [hx])) (by omega) hprev

theorem sweepDoneVal_last : ∀ (gs : List GasMeta) (g : GasMeta) (prev premium : Int),
    sweepDoneVal (g :: gs) prev premium = (lastPriceD (g :: gs) 0 + prev).tdiv 2 + 1 := by
  intro gs
  induction gs with
  | nil => intro g prev premium; rfl
  | cons g2 gs ih =>
    intro g prev premium
    show sweepDoneVal (g2 :: gs) prev ((g.price + prev).tdiv 2 + 1) = _
    rw [ih g2 prev ((g.price + prev).tdiv 2 + 1)]
    rfl

/-- Claim C1, amended.  The original claim is false: after the first
crossing the loop keeps running and keeps overwriting `premium`, so the
midpoint is taken against the LAST sample landing in the non-positive-
target branch, not against the crossing sample (see the counterexample).
Amended statement, for non-negative limits after the crossing: if every
sample of `ps1` leaves the running target positive and `c` drives it
non-positive, then (1) when the last retained price `lastPriceD ps1 0` is
non-zero the sweep completes with
`(last price of (c :: ps2) + lastPriceD ps1 0).tdiv 2 + 1`, and (2) when
it is zero (in particular when `ps1` is empty) the sweep returns
`c.price + 1` immediately — part (2) is the original claim's immediate-
crossing case, which does hold. -/
theorem premium_sweep_crossing :
    (∀ (ps1 : List GasMeta) (c : GasMeta) (ps2 : List GasMeta) (t : Int),
      (∀ g ∈ ps2, 0 ≤ g.limit) →
      (∀ k, k < ps1.length → 0 < t - sumLimits (ps1.take (k+1))) →
      t - sumLimits ps1 - c.limit ≤ 0 →
      lastPriceD ps1 0 ≠ 0 →
      premiumSweep (ps1 ++ c :: ps2) t 0 0 =
        SweepResult.done ((lastPriceD (c :: ps2) 0 + lastPriceD ps1 0).tdiv 2 + 1)) ∧
    (∀ (ps1 : List GasMeta) (c : GasMeta) (rest : List GasMeta) (t : Int),
      (∀ k, k < ps1.length → 0 < t - sumLimits (ps1.take (k+1))) →
      t - sumLimits ps1 - c.limit ≤ 0 →
      lastPriceD ps1 0 = 0 →
      premiumSweep (ps1 ++ c :: rest) t 0 0 = SweepResult.ret (c.price + 1)) := by
  constructor
  · intro ps1 c ps2 t hlim2 hpre hcross hprev
    rw [premiumSweep_skip ps1 (c :: ps2) t 0 0 hpre]
    unfold premiumSweep
    rw [if_neg (by omega : ¬ (t - sumLimits ps1 - c.limit > 0)), if_neg hprev]
    rw [premiumSweep_post ps2 (t - sumLimits ps1 - c.limit) (lastPriceD ps1 0)
      ((c.price + lastPriceD ps1 0).tdiv 2 + 1) hlim2 (by omega) hprev]
    rw [show sweepDoneVal ps2 (lastPriceD ps1 0) ((c.price + lastPriceD ps1 0).tdiv 2 + 1) =
        sweepDoneVal (c :: ps2) (lastPriceD ps1 0) 0 from rfl]
    rw [sweepDoneVal_last ps2 c (lastPriceD ps1 0) 0]
  · intro ps1 c rest t hpre hcross hprev0
    rw [premiumSweep_skip ps1 (c :: rest) t 0 0 hpre]
    unfold premiumSweep
    rw [if_neg (by omega : ¬ (t - sumLimits ps1 - c.limit > 0)), if_pos hprev0]

/-- Counterexample to C1 as stated: sorted samples
`(10,1), (6,5), (2,5)` with initial target 5.  The crossing sample is
`(6,5)` with prior retained premium 10, so the claim predicts
`(10 + 6)/2 + 1 = 9`; the code's sweep keeps going and yields
`(2 + 10)/2 + 1 = 7`. -/
theorem premium_sweep_midpoint_counterexample :
    premiumSweep [⟨10, 1⟩, ⟨6, 5⟩, ⟨2, 5⟩] 5 0 0 = SweepResult.done 7 ∧
      SweepResult.done 7 ≠ SweepResult.done (((10 + 6 : Int)).tdiv 2 + 1) := by
  constructor
  · decide
  · decide

/-- Witness for C1 (amended), at the counterexample input: the amended
formula produces exactly the sweep's value 7. -/
theorem premium_sweep_crossing_witness :
    premiumSweep [⟨10, 1⟩, ⟨6, 5⟩, ⟨2, 5⟩] 5 0 0 = SweepResult.done 7 := by
  have h := premium_sweep_crossing.1 [⟨10, 1⟩] ⟨6, 5⟩ [⟨2, 5⟩] 5
    (by decide)
    (by
      intro k hk
      simp only [List.length_cons, List.length_nil] at hk
      have : k = 0 := by omega
      subst this
      decide)
    (by decide) (by decide)
  exact h.trans (by decide)

theorem gatherLoop_prices_nonneg : ∀ (fuel : Nat) (ts : Tipset) (anc : List Tipset)
    (acc : List GasMeta) (b : Nat) (out : List GasMeta × Nat × Nat),
    gatherLoop fuel ts anc acc b = Except.ok out →
    (∀ g ∈ acc, 0 ≤ g.price) →
    (∀ t ∈ anc, ∀ cm ∈ t.msgs, 0 ≤ cm.message.gas_premium) →
    ∀ g ∈ out.1, 0 ≤ g.price := by
  intro fuel
  induction fuel with
  | zero =>
    intro ts anc acc b out h hacc _
    cases h
    exact hacc
  | succ n ih =>
    intro ts anc acc b out h hacc hanc
    unfold gatherLoop at h
    split at h
    · cases h; exact hacc
    · split at h
      · exact Except.noConfusion h
      · rename_i pts rest
        split at h
        · exact Except.noConfusion h
        · rename_i ps bs steps hg
          cases h
          intro g hgmem
          refine ih pts rest _ _ _ hg ?_ ?_ g hgmem
          · intro g' hg'
            rcases List.mem_append.mp hg' with hl | hr
            · exact hacc g' hl
            · obtain ⟨cm, hcm, rfl⟩ := List.mem_map.mp hr
              exact hanc pts (by simp) cm hcm
          · intro t ht cm hcm
            exact hanc t (List.mem_cons_of_mem pts ht) cm hcm

theorem mem_insertDesc : ∀ {l : List GasMeta} {x a : GasMeta},
    a ∈ insertDesc x l → a = x ∨ a ∈ l := by
  intro l
  induction l with
  | nil =>
    intro x a h
    simp [insertDesc] at h
    exact Or.inl h
  | cons y ys ih =>
    intro x a h
    unfold insertDesc at h
    split at h
    · simpa using h
    · rcases List.mem_cons.mp h with h1 | h2
      · exact Or.inr (by simp [h1])
      · rcases ih h2 with h3 | h4
        · exact Or.inl h3
        · exact Or.inr (by simp [h4])

theorem mem_sortPricesDesc {a : GasMeta} {l : List GasMeta}
    (h : a ∈ sortPricesDesc l) : a ∈ l := by
  have gen : ∀ (l acc : List GasMeta), a ∈ List.foldl (fun acc x => insertDesc x acc) acc l →
      a ∈ acc ∨ a ∈ l := by
    intro l
    induction l with
    | nil => intro acc h'; exact Or.inl h'
    | cons x xs ih =>
      intro acc h'
      rcases ih (insertDesc x acc) h' with h1 | h2
      · rcases mem_insertDesc h1 with h3 | h4
        · exact Or.inr (by simp [h3])
        · exact Or.inl h4
      · exact Or.inr (by simp [h2])
  rcases gen l [] h with h1 | h2
  · simp at h1
  · exact h2

theorem premiumSweep_ret_ge_one : ∀ (ps : List GasMeta) (att prev premium v : Int),
    (∀ g ∈ ps, 0 ≤ g.price) → 0 ≤ prev →
    premiumSweep ps att prev premium = SweepResult.ret v → 1 ≤ v := by
  intro ps
  induction ps with
  | nil =>
    intro att prev premium v _ _ h
    exact SweepResult.noConfusion h
  | cons p rest ih =>
    intro att prev premium v hp hprev h
    simp only [premiumSweep] at h
    split at h
    · exact ih _ _ _ _ (fun g hg => hp g (by simp [hg])) (hp p (by simp)) h
    · split at h
      · cases h
        have := hp p (by simp)
        omega
      · exact ih _ _ _ _ (fun g hg => hp g (by simp [hg])) hprev h

theorem premiumSweep_done_cases : ∀ (ps : List GasMeta) (att prev premium q : Int),
    (∀ g ∈ ps, 0 ≤ g.price) → 0 ≤ prev → (premium = 0 ∨ 1 ≤ premium) →
    premiumSweep ps att prev premium = SweepResult.done q → q = 0 ∨ 1 ≤ q := by
  intro ps
  induction ps with
  | nil =>
    intro att prev premium q _ _ hpm h
    cases h
    exact hpm
  | cons p rest ih =>
    intro att prev premium q hp hprev hpm h
    simp only [premiumSweep] at h
    split at h
    · exact ih _ _ _ _ (fun g hg => hp g (by simp [hg])) (hp p (by simp)) hpm h
    · split at h
      · exact SweepResult.noConfusion h
      · refine ih _ _ _ _ (fun g hg => hp g (by simp [hg])) hprev (Or.inr ?_) h
        have h1 : 0 ≤ p.price + prev := by
          have := hp p (by simp)
          omega
        have h2 : 0 ≤ (p.price + prev).tdiv 2 := Int.tdiv_nonneg h1 (by norm_num)
        omega

theorem applyJitter_pos {premium p : Int} {noise : ℚ} (hp : 1 ≤ premium) (hn : 1 ≤ noise)
    (h : applyJitter premium noise = Except.ok p) : 0 < p := by
  unfold applyJitter at h
  obtain ⟨m, hm, h2⟩ := except_bind_ok h
  have hm' : f64_trunc (noise * 4294967296) = m := by
    have := ok_or_eq_ok hm
    unfold bigint_from_f64 at this
    exact Option.some.inj this
  have harg : (4294967296 : ℚ) ≤ noise * 4294967296 := by nlinarith
  have hnneg : ¬ (noise * 4294967296 < (0:ℚ)) := by nlinarith
  have hfl : (4294967296 : Int) ≤ m := by
    rw [← hm']
    unfold f64_trunc
    rw [if_neg hnneg]
    exact Int.le_floor.mpr (by push_cast; exact harg)
  have hmul : (4294967296 : Int) ≤ premium * m := by
    calc (4294967296 : Int) ≤ m := hfl
    _ ≤ premium * m := le_mul_of_one_le_left (by omega) hp
  have hpv : (premium * m).tdiv 4294967296 = p := pure_eq_ok h2
  rw [← hpv]
  rw [Int.tdiv_eq_ediv (by omega) (by norm_num)]
  have := (Int.le_ediv_iff_mul_le (show (0:Int) < 4294967296 by norm_num)
    (a := 1) (b := premium * m)).mpr (by omega)
  omega

/-- Claim C2, amended.  The original claim is false: the jitter multiplies
by `trunc(noise * 2^32)` and divides by `2^32` with truncation, so a
small enough noise draw (the Gaussian has full support) zeroes the
result, and even an in-band draw just below 1 zeroes a pre-jitter premium
of 1 (see the counterexample).  Amended: provided every on-chain sample
premium is non-negative and the draw satisfies `1 ≤ noise`, every `ok`
result of `estimate_gas_premium` is strictly positive (the immediate-
crossing path returns `price + 1 ≥ 1` with no jitter at all). -/
theorem estimate_gas_premium_pos (st : RPCState) (n0 : Nat) (noise : ℚ) (p : Int)
    (hprem : ∀ ts ∈ st.chain, ∀ cm ∈ ts.msgs, 0 ≤ cm.message.gas_premium)
    (hnoise : 1 ≤ noise)
    (h : estimate_gas_premium st n0 noise = Except.ok p) : 0 < p := by
  simp only [estimate_gas_premium] at h
  obtain ⟨ts, hts, h⟩ := except_bind_ok h
  obtain ⟨pbs, hg, h⟩ := except_bind_ok h
  obtain ⟨prices, blocks, steps⟩ := pbs
  have hanc : ∀ t ∈ st.chain.tail, ∀ cm ∈ t.msgs, 0 ≤ cm.message.gas_premium := by
    intro t ht cm hcm
    refine hprem t ?_ cm hcm
    cases hch : st.chain with
    | nil => rw [hch] at ht; simp at ht
    | cons c cs =>
      rw [hch] at ht
      simp only [List.tail_cons] at ht
      exact List.mem_cons_of_mem c ht
  have hpr : ∀ g ∈ prices, 0 ≤ g.price :=
    gatherLoop_prices_nonneg _ _ _ _ _ _ hg (by simp) hanc
  have hsor : ∀ g ∈ sortPricesDesc prices, 0 ≤ g.price :=
    fun g hg' => hpr g (mem_sortPricesDesc hg')
  dsimp only at h
  rcases hsw : premiumSweep (sortPricesDesc prices)
      ((BLOCK_GAS_TARGET * ((blocks : Nat) : Int)).tdiv 2) 0 0 with v | q
  · rw [hsw] at h
    have hv : v = p := pure_eq_ok h
    have := premiumSweep_ret_ge_one _ _ _ _ _ hsor (le_refl 0) hsw
    omega
  · rw [hsw] at h
    obtain ⟨premium1, hp1, happ⟩ := except_bind_ok h
    have hge : 1 ≤ premium1 := by
      by_cases hq : q = 0
      · rw [if_pos hq, fallback_eval, ok_or_some] at hp1
        have := (Except.ok.injEq _ _).mp hp1
        rw [← this]
        split
        · norm_num
        · split <;> norm_num
      · rw [if_neg hq] at hp1
        have hqp : q = premium1 := pure_eq_ok hp1
        have := premiumSweep_done_cases _ _ _ _ _ hsor (le_refl 0) (Or.inl rfl) hsw
        omega
    exact applyJitter_pos hge hnoise happ

/-- Helper: when the gather and sweep stages are fixed and the sweep
completes with a non-zero premium, the call reduces to jittering it. -/
theorem premium_eval_done (st : RPCState) (n0 : Nat) (noise : ℚ) (ts : Tipset)
    (prices : List GasMeta) (blocks steps : Nat) (premium0 : Int)
    (hts : st.chain.head? = some ts)
    (hg : gatherLoop (clampNblocks n0 * 2) ts st.chain.tail [] 0 = Except.ok (prices, blocks, steps))
    (hsweep : premiumSweep (sortPricesDesc prices) ((BLOCK_GAS_TARGET * (blocks : Int)).tdiv 2) 0 0 = SweepResult.done premium0)
    (hnz : premium0 ≠ 0) :
    estimate_gas_premium st n0 noise = applyJitter premium0 noise := by
  simp only [estimate_gas_premium, hts, ok_or_some, ok_bind, hg, hsweep]
  simp [hnz]

/-- Counterexample to C2 as stated: on `zeroOutState` the sweep leaves the
pre-jitter premium 1, and the in-band noise draw `1 - 2^-33` (well within
the documented ±1% band) makes the function return exactly 0. -/
theorem estimate_gas_premium_zero_counterexample :
    estimate_gas_premium zeroOutState 1 (1 - 1/2^33) = Except.ok 0 := by
  have hjit : applyJitter 1 (1 - 1/2^33) = Except.ok 0 := by
    unfold applyJitter
    have hb : bigint_from_f64 ((1 - 1/2^33) * 4294967296) = some 4294967295 := by
      unfold bigint_from_f64 f64_trunc
      norm_num
    rw [hb, ok_or_some, ok_bind]
    rfl
  have h := premium_eval_done zeroOutState 1 (1 - 1/2^33) headTipset
    [⟨1, 1⟩, ⟨0, 2500000000⟩] 1 1 1 rfl (by decide) (by decide) (by decide)
  rw [h, hjit]

/-- Witness for C2 (amended): on the genesis-only state with noise 1 the
result 200000 is strictly positive. -/
theorem estimate_gas_premium_pos_witness : (0 : Int) < 200000 := by
  refine estimate_gas_premium_pos baseState 1 1 200000 (by decide) (by norm_num) ?_
  have h := premium_eval_fallback baseState 1 1 genesisTipset [] 0 0 rfl (by decide) (by decide)
  rw [h]
  have hcl : clampNblocks 1 = 1 := by decide
  rw [hcl]
  simp only [if_pos rfl]
  unfold applyJitter
  have hb : bigint_from_f64 ((1 : ℚ) * 4294967296) = some 4294967296 := by
    unfold bigint_from_f64 f64_trunc
    norm_num
  rw [hb, ok_or_some, ok_bind]
  rfl

end GasApi
